import Mathlib

/-!
# Verification of the retrieval core (chunker, vector index, orchestrator)

A shallow embedding of the Python retrieval core:

* `ContentIngestion.chunk_text` (ingestion.py, also `RAGPipeline.chunk_text`
  in rag_pipeline.py): the word-window chunker.  Its `while` loop may fail to
  terminate, so the loop is modelled with explicit fuel (`chunkLoop`); `none`
  means the fuel was exhausted, and divergence is expressed as returning
  `none` for *every* fuel.
* `VectorStore` (vector_store.py): parallel lists of embeddings and chunk
  records, with `add_chunk`, `cosine_similarity`, `search`, `clear`, `size`
  and `reload_from_database`.
* `RAGPipeline.query` (rag_pipeline.py): search, answer generation and the
  deduplicated evidence list.
* `validate_note` / `process_content` (ingestion.py).

Modelling conventions:
* Python floats are idealised as the elements of a linear ordered field `α`
  (`ℝ` for the numerical facts, `ℚ` for executable witnesses); `math.sqrt`
  is an explicit function parameter `sqrt` (instantiated with `Real.sqrt`
  over `ℝ`).
* The Azure OpenAI embedding client is a parameter
  `embed : String → Option (List α)`; `none` models a raised exception.
  Likewise the chat-completion client is a parameter `complete`.
* A raised exception is an `Except.error`; operations that mutate state
  return the post-state alongside the result, so that "state unchanged on
  raise" is a statement, not a convention.
* Python's stable `list.sort(key=lambda x: x[1], reverse=True)` is modelled
  by `List.insertionSort scoreGE` on index-tagged pairs: insertion sort is
  stable, and the list being sorted carries strictly increasing indices from
  `enumerate`, which is exactly CPython's situation.
-/

/-- Decidable equality for `Except`, needed so witnesses can `decide`
results of fallible operations. -/
instance {ε β : Type} [DecidableEq ε] [DecidableEq β] : DecidableEq (Except ε β) :=
  fun a b =>
    match a, b with
    | .ok x, .ok y => if h : x = y then .isTrue (by rw [h]) else .isFalse (by simp [h])
    | .error x, .error y => if h : x = y then .isTrue (by rw [h]) else .isFalse (by simp [h])
    | .ok _, .error _ => .isFalse (by simp)
    | .error _, .ok _ => .isFalse (by simp)

/-! ## Python primitives: `str.split()` and list slicing -/

/-- Helper for `pyWords`: scan the character list, accumulating the current
word (in reverse) in `cur`; whitespace finishes a word, empty words are
dropped.  This is the semantics of Python's `str.split()` with no
arguments. -/
def wordsAux : List Char → List Char → List String
  | [], cur => if cur.isEmpty then [] else [String.mk cur.reverse]
  | c :: rest, cur =>
    if c.isWhitespace then
      if cur.isEmpty then wordsAux rest [] else String.mk cur.reverse :: wordsAux rest []
    else wordsAux rest (c :: cur)

/-- Model of Python `text.split()`: split on runs of whitespace, dropping
empty words. -/
def pyWords (text : String) : List String := wordsAux text.data []

/-- Model of Python `text.strip()`: remove leading and trailing
whitespace. -/
def pyStrip (t : String) : String :=
  String.mk ((t.data.dropWhile Char.isWhitespace).reverse.dropWhile
    Char.isWhitespace).reverse

/-- Normalise one Python slice index against a list length: negative indices
count from the end (clamped at 0), nonnegative ones are clamped at the
length. -/
def pySliceIdx (len : ℕ) (i : Int) : ℕ :=
  if i < 0 then len - (-i).toNat else min i.toNat len

/-- Model of the Python slice `l[a:b]`. -/
def pySlice {γ : Type} (l : List γ) (a b : Int) : List γ :=
  (l.take (pySliceIdx l.length b)).drop (pySliceIdx l.length a)

/-! ## Chunker (`ContentIngestion.chunk_text`, ingestion.py lines 80–114;
the identical loop appears as `RAGPipeline.chunk_text`, rag_pipeline.py
lines 23–54) -/

namespace ContentIngestion

/-- The `while start < len(words)` loop of `chunk_text`, with fuel.  One unit
of fuel is one loop iteration; `none` means the fuel ran out.  `start` is a
Python `int`, hence `Int`.  Faithful to the source: the step is
`start = end - overlap` with **no clamping**, followed by
`if start >= len(words): break`. -/
def chunkLoop (words : List String) (chunk_size overlap : ℕ) :
    ℕ → Int → List String → Option (List String)
  | 0, _, _ => none
  | fuel + 1, start, acc =>
    if start < (words.length : Int) then
      let e : Int := start + (chunk_size : Int)
      let chunk := " ".intercalate (pySlice words start e)
      let acc' := acc ++ [chunk]
      if (words.length : Int) ≤ e - (overlap : Int) then some acc'
      else chunkLoop words chunk_size overlap fuel (e - (overlap : Int)) acc'
    else some acc

/-- Model of `ContentIngestion.chunk_text(text, chunk_size, overlap)`.  The fuel
`(pyWords text).length + 1` is enough for every terminating configuration
(`overlap < chunk_size` advances `start` by at least one word per
iteration), so `none` is reported exactly when the Python loop diverges
within that budget. -/
def chunk_text (text : String) (chunk_size overlap : ℕ) : Option (List String) :=
  let words := pyWords text
  if words.length ≤ chunk_size then some [text]
  else chunkLoop words chunk_size overlap (words.length + 1) 0 []

end ContentIngestion

/-- Specification-side description of the window start indices: starting
from `start`, advance by `step` while the index is below `len`.  The number
of starts is `⌈(len - start) / step⌉`. -/
def chunkStartsFrom (len step start : ℕ) : List ℕ :=
  List.range' start ((len - start + step - 1) / step) step

/-- The window starts of a chunking run: `0, step, 2·step, …` while `< len`. -/
def chunkStarts (len step : ℕ) : List ℕ := chunkStartsFrom len step 0

/-- The chunk text produced for the window starting at word `s`:
`' '.join(words[s : s + chunk_size])`. -/
def windowText (words : List String) (chunk_size s : ℕ) : String :=
  " ".intercalate ((words.drop s).take chunk_size)

/-! ## Vector store (`VectorStore`, vector_store.py) -/

/-- The chunk metadata dict built by both callers of `add_chunk`
(`process_content` and `reload_from_database`):
`{'chunk_id': …, 'item_id': …, 'chunk_index': …}`. -/
structure ChunkMeta where
  chunk_id : Int
  item_id : Int
  chunk_index : Int
deriving DecidableEq, Inhabited

/-- An entry of `VectorStore.chunks`: the dict
`{'text': chunk_text, 'metadata': chunk_metadata}`. -/
structure ChunkRec where
  text : String
  metadata : ChunkMeta
deriving DecidableEq, Inhabited

/-- The in-memory vector store state: the two parallel lists
`self.embeddings` and `self.chunks`. -/
structure VectorStore (α : Type) where
  embeddings : List (List α)
  chunks : List ChunkRec
deriving DecidableEq

/-- The dot product `sum(a * b for a, b in zip(vec1, vec2))`. -/
def dot_product {α : Type} [LinearOrderedField α] (vec1 vec2 : List α) : α :=
  ((vec1.zip vec2).map (fun p => p.1 * p.2)).sum

/-- The norm `math.sqrt(sum(a * a for a in v))`, with `math.sqrt` the explicit
parameter `sqrt`. -/
def vecNorm {α : Type} [LinearOrderedField α] (sqrt : α → α) (v : List α) : α :=
  sqrt ((v.map (fun a => a * a)).sum)

/-- Model of `VectorStore.cosine_similarity` (vector_store.py lines 62–73): returns
`0.0` when either norm is zero, else `dot / (norm1 * norm2)`. -/
def cosine_similarity {α : Type} [LinearOrderedField α] (sqrt : α → α)
    (vec1 vec2 : List α) : α :=
  if vecNorm sqrt vec1 = 0 ∨ vecNorm sqrt vec2 = 0 then 0
  else dot_product vec1 vec2 / (vecNorm sqrt vec1 * vecNorm sqrt vec2)

/-- The comparison used by `similarities.sort(key=lambda x: x[1],
reverse=True)`: pairs ordered by score, descending. -/
def scoreGE {β : Type} [LinearOrder β] (a b : ℕ × β) : Prop := b.2 ≤ a.2

instance {β : Type} [LinearOrder β] : DecidableRel (scoreGE (β := β)) :=
  fun a b => inferInstanceAs (Decidable (b.2 ≤ a.2))

instance {β : Type} [LinearOrder β] : IsTotal (ℕ × β) scoreGE :=
  ⟨fun a b => le_total b.2 a.2⟩

instance {β : Type} [LinearOrder β] : IsTrans (ℕ × β) scoreGE :=
  ⟨fun _ _ _ h1 h2 => le_trans h2 h1⟩

/-- The specification's ranking order on `(insertion index, score)` pairs:
score strictly greater first, and for equal scores the earlier-inserted
(smaller index) entry first.  This is the spec sentence "sorted by
descending score, ties broken by ascending insertion order". -/
def lexGE {β : Type} [LinearOrder β] (a b : ℕ × β) : Prop :=
  b.2 < a.2 ∨ (a.2 = b.2 ∧ a.1 ≤ b.1)

instance {β : Type} [LinearOrder β] : DecidableRel (lexGE (β := β)) :=
  fun a b => inferInstanceAs (Decidable (b.2 < a.2 ∨ (a.2 = b.2 ∧ a.1 ≤ b.1)))

instance {β : Type} [LinearOrder β] : IsTotal (ℕ × β) lexGE :=
  ⟨fun a b => by
    rcases lt_trichotomy a.2 b.2 with h | h | h
    · exact Or.inr (Or.inl h)
    · rcases le_total a.1 b.1 with h1 | h1
      · exact Or.inl (Or.inr ⟨h, h1⟩)
      · exact Or.inr (Or.inr ⟨h.symm, h1⟩)
    · exact Or.inl (Or.inl h)⟩

instance {β : Type} [LinearOrder β] : IsTrans (ℕ × β) lexGE :=
  ⟨fun a b c hab hbc => by
    rcases hab with h1 | ⟨h1, h1i⟩ <;> rcases hbc with h2 | ⟨h2, h2i⟩
    · exact Or.inl (lt_trans h2 h1)
    · exact Or.inl (h2 ▸ h1)
    · exact Or.inl (h1 ▸ h2)
    · exact Or.inr ⟨h1.trans h2, le_trans h1i h2i⟩⟩

instance {β : Type} [LinearOrder β] : IsAntisymm (ℕ × β) lexGE :=
  ⟨fun a b hab hba => by
    rcases hab with h1 | ⟨h1, h1i⟩ <;> rcases hba with h2 | ⟨h2, h2i⟩
    · exact absurd (lt_trans h1 h2) (lt_irrefl _)
    · exact absurd h1 (h2 ▸ lt_irrefl _)
    · exact absurd h2 (h1 ▸ lt_irrefl _)
    · exact Prod.ext (le_antisymm h1i h2i) h1⟩

/-- The enumerated similarity list built by `search`
(`for idx, chunk_embedding in enumerate(self.embeddings): …`). -/
def similarityList {α : Type} [LinearOrderedField α] (sqrt : α → α) (qe : List α)
    (vs : VectorStore α) : List (ℕ × α) :=
  vs.embeddings.enum.map (fun p => (p.1, cosine_similarity sqrt qe p.2))

namespace VectorStore

/-- Model of `VectorStore.add_chunk` (vector_store.py lines 48–60): embed the text;
on success append the vector and the chunk record, on failure re-raise with
nothing appended.  The second component is the post-state. -/
def add_chunk {α : Type} [LinearOrderedField α] (embed : String → Option (List α))
    (vs : VectorStore α) (ctext : String) (chunk_metadata : ChunkMeta) :
    Except Unit Unit × VectorStore α :=
  match embed ctext with
  | none => (.error (), vs)
  | some e => (.ok (), ⟨vs.embeddings ++ [e], vs.chunks ++ [⟨ctext, chunk_metadata⟩]⟩)

/-- Model of `VectorStore.search` (vector_store.py lines 75–105): empty index returns
`[]` without touching the embedding client; otherwise embed the query,
score every stored embedding, stable-sort by descending score, take the
first `top_k` and pair each with its chunk record. -/
def search {α : Type} [LinearOrderedField α] (sqrt : α → α)
    (embed : String → Option (List α)) (vs : VectorStore α)
    (query : String) (top_k : ℕ) : Except Unit (List (ChunkRec × α)) :=
  if vs.embeddings.isEmpty then .ok []
  else
    match embed query with
    | none => .error ()
    | some qe =>
      let sorted := List.insertionSort scoreGE (similarityList sqrt qe vs)
      .ok ((sorted.take top_k).map (fun p => (vs.chunks.getD p.1 default, p.2)))

/-- Model of `VectorStore.clear` (vector_store.py lines 107–111). -/
def clear {α : Type} (_vs : VectorStore α) : VectorStore α := ⟨[], []⟩

/-- Model of `VectorStore.size` (vector_store.py lines 113–115). -/
def size {α : Type} (vs : VectorStore α) : ℕ := vs.chunks.length

end VectorStore

/-- A row returned by `db.get_all_chunks()` (chunks joined with the owning
item's `source_type` and `url`). -/
structure DbChunk where
  id : Int
  item_id : Int
  chunk_text : String
  chunk_index : Int
  source_type : String
  url : Option String
deriving DecidableEq

namespace VectorStore

/-- The `for chunk in all_chunks` loop of `reload_from_database`: add each
chunk in order; a raise from `add_chunk` propagates, keeping the chunks
added so far (the second component is the state at the moment of the
raise). -/
def reloadLoop {α : Type} [LinearOrderedField α] (embed : String → Option (List α)) :
    List DbChunk → VectorStore α → Except Unit Unit × VectorStore α
  | [], vs => (.ok (), vs)
  | c :: rest, vs =>
    match add_chunk embed vs c.chunk_text ⟨c.id, c.item_id, c.chunk_index⟩ with
    | (.ok _, vs') => reloadLoop embed rest vs'
    | (.error e, vs') => (.error e, vs')

/-- Model of `VectorStore.reload_from_database` (vector_store.py lines 117–147).
Faithful to the source: when `db.get_all_chunks()` is empty the method
**returns early without calling `clear`**, leaving the current index
contents in place; otherwise it clears and re-adds every chunk. -/
def reload_from_database {α : Type} [LinearOrderedField α]
    (embed : String → Option (List α)) (dbChunks : List DbChunk)
    (vs : VectorStore α) : Except Unit Unit × VectorStore α :=
  if dbChunks.isEmpty then (.ok (), vs)
  else reloadLoop embed dbChunks (clear vs)

/-- The chunk record that reloading builds for a database row. -/
def recOfDbChunk (c : DbChunk) : ChunkRec :=
  ⟨c.chunk_text, ⟨c.id, c.item_id, c.chunk_index⟩⟩

/-- The index-alignment invariant of §3: the embedding list and the chunk
record list always have the same length. -/
def aligned {α : Type} (vs : VectorStore α) : Prop :=
  vs.embeddings.length = vs.chunks.length

instance {α : Type} (vs : VectorStore α) : Decidable (aligned vs) :=
  inferInstanceAs (Decidable (_ = _))

end VectorStore

/-! ## RAG pipeline (`RAGPipeline.query`, rag_pipeline.py lines 133–177) -/

/-- The fields of an item row that `query` reads after
`db.get_item_by_id(item_id)`. -/
structure ItemRec where
  source_type : String
  url : Option String
deriving DecidableEq, Inhabited

/-- One entry of the source-snippet list built by `query`. -/
structure SourceEntry (α : Type) where
  item_id : Int
  content : String
  source_type : String
  url : Option String
  relevance_score : α
deriving DecidableEq

/-- The content-display expression of `query` (rag_pipeline.py line 167):
`chunk_data['text'][:200] + "..." if len(chunk_data['text']) > 200 else
chunk_data['text']`. -/
def truncateContent (t : String) : String :=
  if 200 < t.length then t.take 200 ++ "..." else t

/-- The source-snippet loop of `query` (rag_pipeline.py lines 151–171):
walk the search results keeping a `seen_items` set of item ids; the first
result for each id (if the item is found in the database) yields an entry,
every later result with the same id is skipped.  Note the id is added to
`seen` *before* the database lookup, exactly as in the source. -/
def buildSources {α : Type} (get_item : Int → Option ItemRec) :
    List (ChunkRec × α) → List Int → List (SourceEntry α)
  | [], _ => []
  | (cd, score) :: rest, seen =>
    let iid := cd.metadata.item_id
    if iid ∈ seen then buildSources get_item rest seen
    else
      match get_item iid with
      | some item =>
          ⟨iid, truncateContent cd.text, item.source_type, item.url, score⟩ ::
            buildSources get_item rest (iid :: seen)
      | none => buildSources get_item rest (iid :: seen)

namespace RAGPipeline

/-- Model of `RAGPipeline.query` (rag_pipeline.py lines 133–177).  `complete` models
`generate_answer` (the Azure chat call on the question and the retrieved
context chunks); `none` is a raised exception.  On an empty search result
the fixed no-information answer is returned with an empty source list. -/
def query {α : Type} [LinearOrderedField α] (sqrt : α → α)
    (embed : String → Option (List α)) (get_item : Int → Option ItemRec)
    (complete : String → List (ChunkRec × α) → Option String)
    (vs : VectorStore α) (question : String) (max_results : ℕ) :
    Except Unit (String × List (SourceEntry α)) :=
  match VectorStore.search sqrt embed vs question max_results with
  | .error e => .error e
  | .ok search_results =>
    if search_results.isEmpty then
      .ok ("I don't have any relevant information to answer this question.", [])
    else
      match complete question search_results with
      | none => .error ()
      | some answer => .ok (answer, buildSources get_item search_results [])

end RAGPipeline

/-! ## Ingestion (`validate_note` / `process_content`, ingestion.py) -/

/-- A row of the `items` table. -/
structure ItemRow where
  id : Int
  content : String
  source_type : String
  url : Option String
deriving DecidableEq

/-- A row of the `chunks` table. -/
structure ChunkRow where
  id : Int
  item_id : Int
  chunk_text : String
  chunk_index : Int
deriving DecidableEq

/-- The relational store: the two tables plus the autoincrement counters. -/
structure DbState where
  items : List ItemRow
  chunks : List ChunkRow
  next_item_id : Int
  next_chunk_id : Int
deriving DecidableEq

/-- Model of `db.insert_item` (database.py lines 71–81). -/
def insert_item (db : DbState) (content source_type : String) (url : Option String) :
    Int × DbState :=
  (db.next_item_id,
    ⟨db.items ++ [⟨db.next_item_id, content, source_type, url⟩], db.chunks,
      db.next_item_id + 1, db.next_chunk_id⟩)

/-- Model of `db.insert_chunk` (database.py lines 83–91). -/
def insert_chunk (db : DbState) (item_id : Int) (ctext : String) (cindex : Int) :
    Int × DbState :=
  (db.next_chunk_id,
    ⟨db.items, db.chunks ++ [⟨db.next_chunk_id, item_id, ctext, cindex⟩],
      db.next_item_id, db.next_chunk_id + 1⟩)

namespace ContentIngestion

/-- Model of `ContentIngestion.validate_note` (ingestion.py lines 63–77): rejects
content that is empty after stripping, then content longer than 50,000
characters.  Returns `(is_valid, error_message)`. -/
def validate_note (content : String) : Bool × Option String :=
  if content = "" ∨ pyStrip content = "" then
    (false, some "Note content cannot be empty")
  else if 50000 < content.length then
    (false, some "Note content too long (max 50,000 characters)")
  else
    (true, none)

end ContentIngestion

/-- The per-chunk loop of `process_content` (ingestion.py lines 160–174):
insert the chunk row, then add it to the vector store; an embedding failure
raises, keeping the database rows inserted so far (including the row for
the failing chunk) and the vector-store entries added so far. -/
def processChunks {α : Type} [LinearOrderedField α] (embed : String → Option (List α))
    (item_id : Int) :
    List String → ℕ → DbState → VectorStore α → Except Unit Unit × DbState × VectorStore α
  | [], _, db, vs => (.ok (), db, vs)
  | t :: rest, i, db, vs =>
    let r := insert_chunk db item_id t (i : Int)
    match VectorStore.add_chunk embed vs t ⟨r.1, item_id, (i : Int)⟩ with
    | (.ok _, vs') => processChunks embed item_id rest (i + 1) r.2 vs'
    | (.error e, vs') => (.error e, r.2, vs')

/-- Model of `process_content` (ingestion.py lines 120–177).  `extract_url` models
`ContentIngestion.extract_url_content` (`none` = extraction failure).  A
validation or extraction failure raises `ValueError` before any database or
vector-store side effect.  The chunker is called with the default
configuration `chunk_size=500, overlap=50`, which always terminates, so the
`Option` from `chunk_text` is defaulted to `[]` (never taken). -/
def process_content {α : Type} [LinearOrderedField α] (embed : String → Option (List α))
    (extract_url : String → Option String) (db : DbState) (vs : VectorStore α)
    (content source_type : String) : Except Unit Int × DbState × VectorStore α :=
  let fc : Except Unit (String × Option String) :=
    if source_type = "url" then
      match extract_url content with
      | none => .error ()
      | some t => .ok (t, some content)
    else
      if (ContentIngestion.validate_note content).1 then .ok (content, none)
      else .error ()
  match fc with
  | .error e => (.error e, db, vs)
  | .ok (final_content, url) =>
    let r := insert_item db final_content source_type url
    let chunks := (ContentIngestion.chunk_text final_content 500 50).getD []
    match processChunks embed r.1 chunks 0 r.2 vs with
    | (.ok _, db', vs') => (.ok r.1, db', vs')
    | (.error e, db', vs') => (.error e, db', vs')

/-! ## Helper lemmas: Python slicing and the chunker loop -/

theorem pySliceIdx_coe (len s : ℕ) : pySliceIdx len (s : Int) = min s len := by
  unfold pySliceIdx
  rw [if_neg (by omega)]
  simp

theorem pySlice_nat {γ : Type} (l : List γ) (s c : ℕ) (hs : s ≤ l.length) :
    pySlice l (s : Int) ((s : Int) + (c : Int)) = (l.drop s).take c := by
  unfold pySlice
  have h2 : (s : Int) + (c : Int) = ((s + c : ℕ) : Int) := by push_cast; ring
  rw [h2, pySliceIdx_coe, pySliceIdx_coe, List.drop_take]
  have hmin : s ⊓ l.length = s := min_eq_left hs
  rw [hmin, List.take_eq_take]
  simp only [List.length_drop]
  omega

theorem count_shift (x st : ℕ) (h1 : 1 ≤ x) (hst : 0 < st) :
    (x + st - 1) / st = (x - st + st - 1) / st + 1 := by
  rcases le_or_lt x st with h | h
  · have hL : (x + st - 1) / st = 1 := by
      have hx : x + st - 1 = (x - 1) + st := by omega
      rw [hx, Nat.add_div_right _ hst, Nat.div_eq_of_lt (by omega)]
    have hz : x - st = 0 := by omega
    have hR : (x - st + st - 1) / st = 0 := by
      rw [hz]; exact Nat.div_eq_of_lt (by omega)
    omega
  · have hx : x + st - 1 = (x - st + st - 1) + st := by omega
    rw [hx, Nat.add_div_right _ hst]

theorem chunkStartsFrom_stop (len step start : ℕ) (h : len ≤ start) :
    chunkStartsFrom len step start = [] := by
  unfold chunkStartsFrom
  have hz : len - start = 0 := by omega
  rw [hz]
  have hc : (0 + step - 1) / step = 0 := by
    rcases Nat.eq_zero_or_pos step with h0 | h0
    · simp [h0]
    · exact Nat.div_eq_of_lt (by omega)
  rw [hc]
  simp [List.range']

theorem chunkStartsFrom_cons (len step start : ℕ) (h : start < len) (hst : 0 < step) :
    chunkStartsFrom len step start = start :: chunkStartsFrom len step (start + step) := by
  unfold chunkStartsFrom
  have hcount := count_shift (len - start) step (by omega) hst
  have harg : len - start - step = len - (start + step) := by omega
  rw [harg] at hcount
  rw [hcount]
  rfl

theorem chunkLoop_eq (words : List String) (cs ov : ℕ) (hov : ov < cs) :
    ∀ (fuel start : ℕ) (acc : List String), start < words.length →
      words.length - start ≤ fuel →
      ContentIngestion.chunkLoop words cs ov fuel (start : Int) acc =
        some (acc ++ (chunkStartsFrom words.length (cs - ov) start).map
          (windowText words cs)) := by
  intro fuel
  induction fuel with
  | zero => intro start acc hlt hfuel; omega
  | succ fuel ih =>
    intro start acc hlt hfuel
    unfold ContentIngestion.chunkLoop
    rw [if_pos (by exact_mod_cast hlt)]
    simp only []
    have hslice : pySlice words (start : Int) ((start : Int) + (cs : Int)) =
        (words.drop start).take cs := pySlice_nat words start cs (le_of_lt hlt)
    rw [hslice]
    rw [chunkStartsFrom_cons words.length (cs - ov) start hlt (by omega)]
    by_cases hstop : (words.length : Int) ≤ (start : Int) + (cs : Int) - (ov : Int)
    · rw [if_pos hstop]
      have hstop' : words.length ≤ start + (cs - ov) := by omega
      rw [chunkStartsFrom_stop words.length (cs - ov) (start + (cs - ov)) hstop']
      simp [windowText]
    · rw [if_neg hstop]
      have hcast : (start : Int) + (cs : Int) - (ov : Int) =
          ((start + (cs - ov) : ℕ) : Int) := by push_cast; omega
      rw [hcast]
      rw [ih (start + (cs - ov)) (acc ++ [" ".intercalate ((words.drop start).take cs)])
        (by omega) (by omega)]
      simp [windowText]

theorem chunk_text_windows (text : String) (cs ov : ℕ) (hov : ov < cs)
    (hlen : cs < (pyWords text).length) :
    ContentIngestion.chunk_text text cs ov =
      some ((chunkStarts (pyWords text).length (cs - ov)).map
        (windowText (pyWords text) cs)) := by
  unfold ContentIngestion.chunk_text
  simp only []
  rw [if_neg (by omega)]
  have h := chunkLoop_eq (pyWords text) cs ov hov ((pyWords text).length + 1) 0 []
    (by omega) (by omega)
  rw [show ((0 : ℕ) : Int) = (0 : Int) from rfl] at h
  rw [h]
  simp [chunkStarts]

theorem chunkStarts_lt_iff (len step : ℕ) (hst : 0 < step) (j : ℕ) :
    j < (chunkStarts len step).length ↔ j * step < len := by
  unfold chunkStarts chunkStartsFrom
  rw [List.length_range']
  rw [Nat.sub_zero]
  have hm : (j + 1) * step = j * step + step := by ring
  constructor
  · intro h
    have h2 : j + 1 ≤ (len + step - 1) / step := by omega
    have h3 := (Nat.le_div_iff_mul_le hst).mp h2
    omega
  · intro h
    have h2 : (j + 1) * step ≤ len + step - 1 := by omega
    have h3 := (Nat.le_div_iff_mul_le hst).mpr h2
    omega

theorem chunkLoop_no_advance (words : List String) (cs ov : ℕ) (hd : cs ≤ ov)
    (hw : words ≠ []) :
    ∀ (fuel : ℕ) (start : Int) (acc : List String), start ≤ 0 →
      ContentIngestion.chunkLoop words cs ov fuel start acc = none := by
  intro fuel
  induction fuel with
  | zero => intro start acc h; rfl
  | succ fuel ih =>
    intro start acc h
    have hlen : 0 < words.length := List.length_pos.mpr hw
    unfold ContentIngestion.chunkLoop
    rw [if_pos (by omega)]
    simp only []
    rw [if_neg (by omega)]
    exact ih _ _ (by omega)

/-! ## Helper lemmas: stability of the score sort -/

theorem lexGE_of_scoreGE_of_lt {β : Type} [LinearOrder β] {x y : ℕ × β}
    (h : scoreGE x y) (hi : x.1 < y.1) : lexGE x y := by
  rcases lt_or_eq_of_le h with h1 | h1
  · exact Or.inl h1
  · exact Or.inr ⟨h1.symm, le_of_lt hi⟩

theorem sorted_lexGE_orderedInsert {β : Type} [LinearOrder β] (x : ℕ × β) :
    ∀ l : List (ℕ × β), List.Sorted lexGE l → (∀ y ∈ l, x.1 < y.1) →
      List.Sorted lexGE (List.orderedInsert scoreGE x l) := by
  intro l
  induction l with
  | nil => intro _ _; simp [List.orderedInsert]
  | cons y ys ih =>
    intro hs hx
    rw [List.sorted_cons] at hs
    by_cases h : scoreGE x y
    · rw [List.orderedInsert, if_pos h, List.sorted_cons]
      have hxy : lexGE x y := lexGE_of_scoreGE_of_lt h (hx y (List.mem_cons_self y ys))
      refine ⟨?_, List.sorted_cons.mpr hs⟩
      intro b hb
      rcases List.mem_cons.mp hb with h1 | h1
      · exact h1 ▸ hxy
      · exact IsTrans.trans x y b hxy (hs.1 b h1)
    · rw [List.orderedInsert, if_neg h, List.sorted_cons]
      refine ⟨?_, ih hs.2 (fun z hz => hx z (List.mem_cons_of_mem y hz))⟩
      intro b hb
      simp only [scoreGE] at h
      have h2 : x.2 < y.2 := lt_of_not_le h
      rcases (List.mem_orderedInsert scoreGE).mp hb with h1 | h1
      · exact h1 ▸ Or.inl h2
      · exact hs.1 b h1

theorem sorted_lexGE_insertionSort {β : Type} [LinearOrder β] :
    ∀ l : List (ℕ × β), List.Pairwise (fun a b => a.1 < b.1) l →
      List.Sorted lexGE (List.insertionSort scoreGE l) := by
  intro l
  induction l with
  | nil => intro _; simp
  | cons x xs ih =>
    intro hp
    rw [List.pairwise_cons] at hp
    rw [List.insertionSort]
    refine sorted_lexGE_orderedInsert x _ (ih hp.2) ?_
    intro y hy
    exact hp.1 y ((List.mem_insertionSort scoreGE).mp hy)

/-- On a list with strictly increasing insertion indices (the situation of
`enumerate`), the stable descending sort by score coincides with the total
ranking "descending score, ties by ascending insertion index". -/
theorem insertionSort_scoreGE_eq_lexGE {β : Type} [LinearOrder β]
    (l : List (ℕ × β)) (hp : List.Pairwise (fun a b => a.1 < b.1) l) :
    List.insertionSort scoreGE l = List.insertionSort lexGE l := by
  refine List.eq_of_perm_of_sorted ?_ (sorted_lexGE_insertionSort l hp)
    (List.sorted_insertionSort lexGE l)
  exact (List.perm_insertionSort scoreGE l).trans (List.perm_insertionSort lexGE l).symm

theorem enum_pairwise_fst {γ : Type} (l : List γ) :
    List.Pairwise (fun a b : ℕ × γ => a.1 < b.1) l.enum := by
  have h1 : List.Pairwise (fun a b => a < b) (List.map Prod.fst l.enum) := by
    rw [List.enum_map_fst]
    exact List.pairwise_lt_range l.length
  exact List.pairwise_map.mp h1

/-! ## Helper lemmas: `search` -/

/-- The result chunk/score pair built from a ranked index/score pair. -/
def resultOfIdx {α : Type} (vs : VectorStore α) (p : ℕ × α) : ChunkRec × α :=
  (vs.chunks.getD p.1 default, p.2)

theorem similarityList_pairwise_fst {α : Type} [LinearOrderedField α]
    (sqrt : α → α) (qe : List α) (vs : VectorStore α) :
    List.Pairwise (fun a b : ℕ × α => a.1 < b.1) (similarityList sqrt qe vs) := by
  unfold similarityList
  refine List.Pairwise.map _ ?_ (enum_pairwise_fst vs.embeddings)
  intro a b hab
  exact hab

theorem similarityList_length {α : Type} [LinearOrderedField α]
    (sqrt : α → α) (qe : List α) (vs : VectorStore α) :
    (similarityList sqrt qe vs).length = vs.embeddings.length := by
  unfold similarityList
  rw [List.length_map, List.enum_length]

theorem search_empty {α : Type} [LinearOrderedField α] (sqrt : α → α)
    (embed : String → Option (List α)) (vs : VectorStore α) (q : String) (k : ℕ)
    (h : vs.embeddings = []) : VectorStore.search sqrt embed vs q k = .ok [] := by
  unfold VectorStore.search
  rw [if_pos (by simp [h])]

theorem search_eq_ranked {α : Type} [LinearOrderedField α] (sqrt : α → α)
    (embed : String → Option (List α)) (vs : VectorStore α) (q : String) (k : ℕ)
    (qe : List α) (hq : embed q = some qe) :
    VectorStore.search sqrt embed vs q k =
      .ok (((List.insertionSort lexGE (similarityList sqrt qe vs)).take k).map
        (resultOfIdx vs)) := by
  unfold VectorStore.search
  by_cases hemp : vs.embeddings.isEmpty
  · rw [if_pos hemp]
    have h0 : vs.embeddings = [] := List.isEmpty_iff.mp hemp
    unfold similarityList
    rw [h0]
    simp
  · rw [if_neg hemp, hq]
    simp only []
    rw [insertionSort_scoreGE_eq_lexGE _ (similarityList_pairwise_fst sqrt qe vs)]
    rfl

theorem search_ok_sorted {α : Type} [LinearOrderedField α] {sqrt : α → α}
    {embed : String → Option (List α)} {vs : VectorStore α} {q : String} {k : ℕ}
    {res : List (ChunkRec × α)} (h : VectorStore.search sqrt embed vs q k = .ok res) :
    List.Sorted (fun a b : ChunkRec × α => b.2 ≤ a.2) res := by
  unfold VectorStore.search at h
  by_cases hemp : vs.embeddings.isEmpty
  · rw [if_pos hemp] at h
    cases h
    exact List.sorted_nil
  · rw [if_neg hemp] at h
    cases hq : embed q with
    | none => rw [hq] at h; cases h
    | some qe =>
      rw [hq] at h
      simp only [] at h
      cases h
      have hsorted : List.Sorted scoreGE
          (List.insertionSort scoreGE (similarityList sqrt qe vs)) :=
        List.sorted_insertionSort scoreGE _
      have htake : List.Sorted scoreGE
          ((List.insertionSort scoreGE (similarityList sqrt qe vs)).take k) :=
        List.Pairwise.sublist (List.take_sublist k _) hsorted
      refine List.Pairwise.map _ ?_ htake
      intro a b hab
      exact hab

/-! ## Helper lemmas: `buildSources` -/

theorem buildSources_spec {α : Type} (get_item : Int → Option ItemRec) :
    ∀ (results : List (ChunkRec × α)) (seen : List Int),
      (∀ e ∈ buildSources get_item results seen, e.item_id ∉ seen)
      ∧ List.Pairwise (fun a b : SourceEntry α => a.item_id ≠ b.item_id)
          (buildSources get_item results seen)
      ∧ (∀ e ∈ buildSources get_item results seen, ∃ cd s item,
          List.find? (fun q => q.1.metadata.item_id == e.item_id) results = some (cd, s)
          ∧ get_item cd.metadata.item_id = some item
          ∧ e = ⟨cd.metadata.item_id, truncateContent cd.text,
              item.source_type, item.url, s⟩)
      ∧ ((buildSources get_item results seen).map SourceEntry.relevance_score).Sublist
          (results.map Prod.snd) := by
  intro results
  induction results with
  | nil =>
    intro seen
    refine ⟨by simp [buildSources], by simp [buildSources], by simp [buildSources],
      by simp [buildSources]⟩
  | cons p rest ih =>
    intro seen
    obtain ⟨cd, score⟩ := p
    by_cases hseen : cd.metadata.item_id ∈ seen
    · have hunf : buildSources get_item ((cd, score) :: rest) seen =
          buildSources get_item rest seen := by
        simp only [buildSources]
        rw [if_pos hseen]
      obtain ⟨ih1, ih2, ih3, ih4⟩ := ih seen
      rw [hunf]
      refine ⟨ih1, ih2, ?_, ih4.cons score⟩
      intro e he
      obtain ⟨cd1, s1, item1, hfind, hget, hshape⟩ := ih3 e he
      have hne : cd.metadata.item_id ≠ e.item_id := by
        intro hh
        exact ih1 e he (hh ▸ hseen)
      refine ⟨cd1, s1, item1, ?_, hget, hshape⟩
      rw [List.find?_cons_of_neg _ (by simp [hne])]
      exact hfind
    · cases hget : get_item cd.metadata.item_id with
      | some item =>
        have hunf : buildSources get_item ((cd, score) :: rest) seen =
            ⟨cd.metadata.item_id, truncateContent cd.text, item.source_type,
              item.url, score⟩ :: buildSources get_item rest (cd.metadata.item_id :: seen) := by
          simp only [buildSources]
          rw [if_neg hseen, hget]
        obtain ⟨ih1, ih2, ih3, ih4⟩ := ih (cd.metadata.item_id :: seen)
        rw [hunf]
        refine ⟨?_, ?_, ?_, ih4.cons₂ score⟩
        · intro e he
          rcases List.mem_cons.mp he with rfl | he1
          · exact hseen
          · intro hc
            exact ih1 e he1 (List.mem_cons_of_mem _ hc)
        · rw [List.pairwise_cons]
          refine ⟨?_, ih2⟩
          intro e he1 hc
          exact ih1 e he1 (by simp [← hc])
        · intro e he
          rcases List.mem_cons.mp he with rfl | he1
          · refine ⟨cd, score, item, ?_, hget, rfl⟩
            rw [List.find?_cons_of_pos _ (by simp)]
          · obtain ⟨cd1, s1, item1, hfind, hget1, hshape⟩ := ih3 e he1
            have hne : cd.metadata.item_id ≠ e.item_id := by
              intro hh
              exact ih1 e he1 (by simp [hh])
            refine ⟨cd1, s1, item1, ?_, hget1, hshape⟩
            rw [List.find?_cons_of_neg _ (by simp [hne])]
            exact hfind
      | none =>
        have hunf : buildSources get_item ((cd, score) :: rest) seen =
            buildSources get_item rest (cd.metadata.item_id :: seen) := by
          simp only [buildSources]
          rw [if_neg hseen, hget]
        obtain ⟨ih1, ih2, ih3, ih4⟩ := ih (cd.metadata.item_id :: seen)
        rw [hunf]
        refine ⟨?_, ih2, ?_, ih4.cons score⟩
        · intro e he hc
          exact ih1 e he (List.mem_cons_of_mem _ hc)
        · intro e he
          obtain ⟨cd1, s1, item1, hfind, hget1, hshape⟩ := ih3 e he
          have hne : cd.metadata.item_id ≠ e.item_id := by
            intro hh
            exact ih1 e he (by simp [hh])
          refine ⟨cd1, s1, item1, ?_, hget1, hshape⟩
          rw [List.find?_cons_of_neg _ (by simp [hne])]
          exact hfind

/-! ## Helper lemmas: reload, alignment, sums of squares -/

theorem reloadLoop_ok_chunks {α : Type} [LinearOrderedField α]
    (embed : String → Option (List α)) :
    ∀ (cs : List DbChunk) (vs vs' : VectorStore α),
      VectorStore.reloadLoop embed cs vs = (.ok (), vs') →
      vs'.chunks = vs.chunks ++ cs.map VectorStore.recOfDbChunk := by
  intro cs
  induction cs with
  | nil =>
    intro vs vs' h
    simp only [VectorStore.reloadLoop] at h
    cases h
    simp
  | cons c rest ih =>
    intro vs vs' h
    simp only [VectorStore.reloadLoop] at h
    cases hembed : embed c.chunk_text with
    | none =>
      rw [show VectorStore.add_chunk embed vs c.chunk_text ⟨c.id, c.item_id, c.chunk_index⟩ =
          (.error (), vs) from by simp [VectorStore.add_chunk, hembed]] at h
      cases h
    | some e =>
      rw [show VectorStore.add_chunk embed vs c.chunk_text ⟨c.id, c.item_id, c.chunk_index⟩ =
          (.ok (), ⟨vs.embeddings ++ [e], vs.chunks ++ [⟨c.chunk_text,
            ⟨c.id, c.item_id, c.chunk_index⟩⟩]⟩) from by
        simp [VectorStore.add_chunk, hembed]] at h
      have := ih _ _ h
      rw [this]
      simp [VectorStore.recOfDbChunk]

theorem add_chunk_aligned {α : Type} [LinearOrderedField α]
    (embed : String → Option (List α)) (vs : VectorStore α) (t : String)
    (m : ChunkMeta) (h : vs.aligned) :
    (VectorStore.add_chunk embed vs t m).2.aligned := by
  unfold VectorStore.add_chunk
  cases embed t with
  | none => exact h
  | some e => simp only [VectorStore.aligned] at h ⊢; simp [h]

theorem reloadLoop_aligned {α : Type} [LinearOrderedField α]
    (embed : String → Option (List α)) :
    ∀ (cs : List DbChunk) (vs : VectorStore α), vs.aligned →
      (VectorStore.reloadLoop embed cs vs).2.aligned := by
  intro cs
  induction cs with
  | nil => intro vs h; exact h
  | cons c rest ih =>
    intro vs h
    simp only [VectorStore.reloadLoop]
    have hadd := add_chunk_aligned embed vs c.chunk_text ⟨c.id, c.item_id, c.chunk_index⟩ h
    cases hres : VectorStore.add_chunk embed vs c.chunk_text ⟨c.id, c.item_id, c.chunk_index⟩ with
    | mk r vs' =>
      rw [hres] at hadd
      cases r with
      | ok u => exact ih vs' hadd
      | error u => exact hadd

theorem sumsq_nonneg {α : Type} [LinearOrderedField α] (v : List α) :
    0 ≤ ((v.map (fun a => a * a)).sum) := by
  refine List.sum_nonneg ?_
  intro x hx
  rcases List.mem_map.mp hx with ⟨a, _, rfl⟩
  exact mul_self_nonneg a

theorem sumsq_pos {α : Type} [LinearOrderedField α] {v : List α} {x : α}
    (hx : x ∈ v) (hne : x ≠ 0) : 0 < ((v.map (fun a => a * a)).sum) := by
  have h1 : x * x ∈ v.map (fun a => a * a) := List.mem_map_of_mem _ hx
  have h2 : ∀ y ∈ v.map (fun a => a * a), (0 : α) ≤ y := by
    intro y hy
    rcases List.mem_map.mp hy with ⟨a, _, rfl⟩
    exact mul_self_nonneg a
  have h3 := List.single_le_sum h2 (x * x) h1
  have h4 : 0 < x * x := mul_self_pos.mpr hne
  linarith

theorem dot_self {α : Type} [LinearOrderedField α] (v : List α) :
    dot_product v v = (v.map (fun a => a * a)).sum := by
  induction v with
  | nil => rfl
  | cons a v ih =>
    simp only [dot_product, List.zip_cons_cons, List.map_cons, List.sum_cons] at ih ⊢
    rw [ih]

/-! ## Claims about the chunker (C1, C4) -/

/-- Claim C1 — the claim is *right about the intended behaviour and the code is
wrong*: for `overlap ≥ chunk_size` and a text longer than `chunk_size`
words, the loop's step `start = end - overlap` never advances past the word
count (despite the source's own `# Prevent infinite loop` comment), so
`chunk_text` never terminates: the loop exhausts *every* fuel budget.  This
theorem exhibits the divergence; the spec's required clamp to a step of at
least 1 word is absent from the code. -/
theorem chunk_text_degenerate_diverges (text : String) (cs ov : ℕ)
    (hd : cs ≤ ov) (hlen : cs < (pyWords text).length) :
    ContentIngestion.chunk_text text cs ov = none
    ∧ ∀ (fuel : ℕ) (acc : List String),
        ContentIngestion.chunkLoop (pyWords text) cs ov fuel 0 acc = none := by
  have hw : pyWords text ≠ [] := by
    intro h
    rw [h] at hlen
    simp at hlen
  have hloop := chunkLoop_no_advance (pyWords text) cs ov hd hw
  constructor
  · unfold ContentIngestion.chunk_text
    simp only []
    rw [if_neg (by omega)]
    exact hloop _ 0 [] le_rfl
  · intro fuel acc
    exact hloop fuel 0 acc le_rfl

/-- Witness for C1 at the failing input `chunk_text("a b c", 2, 2)`:
3 words, `chunk_size == overlap == 2`, so `start` stays at 0 forever. -/
theorem chunk_text_degenerate_diverges_witness :
    ContentIngestion.chunk_text "a b c" 2 2 = none :=
  (chunk_text_degenerate_diverges "a b c" 2 2 (by decide) (by decide)).1

/-- Claim C4: (i) a text of at most `chunk_size` words yields the single chunk
`[text]`; (ii) for `overlap < chunk_size` and a longer text, the output is
the window texts at starts `0, step, 2·step, …` with `step = chunk_size -
overlap`, and start `j·step` is produced exactly while it is below the word
count; (iii) a 1200-word text with `chunk_size=500, overlap=50` yields
exactly the 3 windows with starts 0, 450, 900 (their ordinals 0,1,2 being
the list positions). -/
theorem chunk_text_windows_spec :
    (∀ (text : String) (cs ov : ℕ), (pyWords text).length ≤ cs →
        ContentIngestion.chunk_text text cs ov = some [text])
    ∧ (∀ (text : String) (cs ov : ℕ), ov < cs → cs < (pyWords text).length →
        ContentIngestion.chunk_text text cs ov =
          some ((chunkStarts (pyWords text).length (cs - ov)).map
            (windowText (pyWords text) cs))
        ∧ ∀ j : ℕ, j < (chunkStarts (pyWords text).length (cs - ov)).length ↔
            j * (cs - ov) < (pyWords text).length)
    ∧ (∀ text : String, (pyWords text).length = 1200 →
        chunkStarts 1200 450 = [0, 450, 900]
        ∧ ContentIngestion.chunk_text text 500 50 =
            some [windowText (pyWords text) 500 0, windowText (pyWords text) 500 450,
              windowText (pyWords text) 500 900]) := by
  refine ⟨?_, ?_, ?_⟩
  · intro text cs ov h
    unfold ContentIngestion.chunk_text
    simp only []
    rw [if_pos h]
  · intro text cs ov hov hlen
    exact ⟨chunk_text_windows text cs ov hov hlen,
      fun j => chunkStarts_lt_iff (pyWords text).length (cs - ov) (by omega) j⟩
  · intro text hlen
    have hcs : chunkStarts 1200 450 = [0, 450, 900] := by decide
    refine ⟨hcs, ?_⟩
    have h := chunk_text_windows text 500 50 (by omega) (by omega)
    rw [hlen] at h
    rw [show (500 : ℕ) - 50 = 450 from rfl, hcs] at h
    simpa using h

/-- A 1200-word text (`"w w … w "`), built so its word list is provable by
induction instead of a deep kernel evaluation. -/
def repChars : ℕ → List Char
  | 0 => []
  | n + 1 => 'w' :: ' ' :: repChars n

theorem wordsAux_repChars (n : ℕ) : wordsAux (repChars n) [] = List.replicate n "w" := by
  induction n with
  | zero => rfl
  | succ n ih =>
    have h1 : wordsAux (repChars (n + 1)) [] = "w" :: wordsAux (repChars n) [] := by
      show wordsAux ('w' :: ' ' :: repChars n) [] = _
      simp only [wordsAux]
      rw [if_neg (by decide), if_pos (by decide), if_neg (by decide)]
      have hw : ({ data := ['w'].reverse } : String) = "w" := rfl
      rw [hw]
    rw [h1, ih]
    rfl

def bigText1200 : String := String.mk (repChars 1200)

theorem pyWords_bigText1200 : (pyWords bigText1200).length = 1200 := by
  show (wordsAux (String.mk (repChars 1200)).data []).length = 1200
  rw [show (String.mk (repChars 1200)).data = repChars 1200 from rfl]
  rw [wordsAux_repChars]
  exact List.length_replicate 1200 "w"

/-- Witness for C4: a 2-word text with `chunk_size=5`; a 7-word text with
`chunk_size=3, overlap=1`; and a concrete 1200-word text. -/
theorem chunk_text_windows_spec_witness :
    ContentIngestion.chunk_text "a b" 5 1 = some ["a b"]
    ∧ ContentIngestion.chunk_text "a b c d e f g" 3 1 =
        some ((chunkStarts (pyWords "a b c d e f g").length 2).map
          (windowText (pyWords "a b c d e f g") 3))
    ∧ (chunkStarts 1200 450 = [0, 450, 900]
        ∧ ContentIngestion.chunk_text bigText1200 500 50 =
            some [windowText (pyWords bigText1200) 500 0,
              windowText (pyWords bigText1200) 500 450,
              windowText (pyWords bigText1200) 500 900]) :=
  ⟨chunk_text_windows_spec.1 "a b" 5 1 (by decide),
   (chunk_text_windows_spec.2.1 "a b c d e f g" 3 1 (by decide) (by decide)).1,
   chunk_text_windows_spec.2.2 bigText1200 pyWords_bigText1200⟩

/-! ## Claim about cosine similarity (C7) -/

/-- Claim C7: with floats idealised as reals, `cosine_similarity` equals
`dot/(norm1*norm2)` when both norms are nonzero and is defined to be `0.0`
when either norm is zero (so it never divides by zero — the only partial
operation — hence never produces NaN); `cosine_similarity(v, v) = 1` for
nonzero `v` and `cosine_similarity(v, 0⃗) = 0`. -/
theorem cosine_similarity_spec :
    (∀ v1 v2 : List ℝ, v1.length = v2.length →
        vecNorm Real.sqrt v1 ≠ 0 → vecNorm Real.sqrt v2 ≠ 0 →
        cosine_similarity Real.sqrt v1 v2 =
          dot_product v1 v2 / (vecNorm Real.sqrt v1 * vecNorm Real.sqrt v2))
    ∧ (∀ v1 v2 : List ℝ, vecNorm Real.sqrt v1 = 0 ∨ vecNorm Real.sqrt v2 = 0 →
        cosine_similarity Real.sqrt v1 v2 = 0)
    ∧ (∀ v : List ℝ, (∃ x ∈ v, x ≠ 0) → cosine_similarity Real.sqrt v v = 1)
    ∧ (∀ (v : List ℝ) (n : ℕ),
        cosine_similarity Real.sqrt v (List.replicate n 0) = 0) := by
  refine ⟨?_, ?_, ?_, ?_⟩
  · intro v1 v2 _ h1 h2
    unfold cosine_similarity
    rw [if_neg (by push_neg; exact ⟨h1, h2⟩)]
  · intro v1 v2 h
    unfold cosine_similarity
    rw [if_pos h]
  · intro v hex
    obtain ⟨x, hx, hne⟩ := hex
    have hpos : 0 < ((v.map (fun a => a * a)).sum) := sumsq_pos hx hne
    have hnorm : vecNorm Real.sqrt v ≠ 0 := by
      unfold vecNorm
      rw [Real.sqrt_ne_zero']
      exact hpos
    unfold cosine_similarity
    rw [if_neg (by push_neg; exact ⟨hnorm, hnorm⟩)]
    rw [dot_self]
    unfold vecNorm
    rw [Real.mul_self_sqrt (le_of_lt hpos)]
    exact div_self (ne_of_gt hpos)
  · intro v n
    have hz : vecNorm Real.sqrt (List.replicate n (0:ℝ)) = 0 := by
      unfold vecNorm
      have hmap : (List.replicate n (0:ℝ)).map (fun a => a * a) =
          List.replicate n 0 := by simp
      rw [hmap]
      simp
    unfold cosine_similarity
    rw [if_pos (Or.inr hz)]

/-- Witness for C7 at the one-dimensional vectors `[1]` and `[0]`. -/
theorem cosine_similarity_spec_witness :
    cosine_similarity Real.sqrt [1] [1] =
      dot_product [1] [1] / (vecNorm Real.sqrt [1] * vecNorm Real.sqrt [1])
    ∧ cosine_similarity Real.sqrt [0] [1] = 0
    ∧ cosine_similarity Real.sqrt [1] [1] = 1
    ∧ cosine_similarity Real.sqrt [1] (List.replicate 1 0) = 0 := by
  have hnorm : vecNorm Real.sqrt [(1:ℝ)] ≠ 0 := by
    unfold vecNorm
    simp
  have hz : vecNorm Real.sqrt [(0:ℝ)] = 0 := by
    unfold vecNorm
    simp
  exact ⟨cosine_similarity_spec.1 [1] [1] rfl hnorm hnorm,
    cosine_similarity_spec.2.1 [0] [1] (Or.inl hz),
    cosine_similarity_spec.2.2.1 [1] ⟨1, by simp, one_ne_zero⟩,
    cosine_similarity_spec.2.2.2 [1] 1⟩

/-! ## Claim about `add_chunk` atomicity (C5) -/

/-- Claim C5: `add_chunk` is all-or-nothing.  If embedding fails the call
raises and the store is unchanged — same embeddings, same chunks, same
`size()`; on success exactly one embedding and one chunk record are
appended. -/
theorem add_chunk_all_or_nothing {α : Type} [LinearOrderedField α]
    (embed : String → Option (List α)) (vs : VectorStore α) (t : String)
    (m : ChunkMeta) :
    (embed t = none →
        VectorStore.add_chunk embed vs t m = (.error (), vs)
        ∧ (VectorStore.add_chunk embed vs t m).2.size = vs.size
        ∧ (VectorStore.add_chunk embed vs t m).2.embeddings = vs.embeddings
        ∧ (VectorStore.add_chunk embed vs t m).2.chunks = vs.chunks)
    ∧ (∀ e, embed t = some e →
        (VectorStore.add_chunk embed vs t m).1 = .ok ()
        ∧ (VectorStore.add_chunk embed vs t m).2.embeddings = vs.embeddings ++ [e]
        ∧ (VectorStore.add_chunk embed vs t m).2.chunks = vs.chunks ++ [⟨t, m⟩]
        ∧ (VectorStore.add_chunk embed vs t m).2.size = vs.size + 1) := by
  constructor
  · intro h
    simp [VectorStore.add_chunk, h, VectorStore.size]
  · intro e h
    simp [VectorStore.add_chunk, h, VectorStore.size]

/-- Witness for C5: a failing embed leaves the concrete one-chunk store
unchanged; a succeeding embed appends exactly one record. -/
theorem add_chunk_all_or_nothing_witness :
    (VectorStore.add_chunk (fun _ => (none : Option (List ℚ)))
        (VectorStore.mk [[1]] [⟨"a", ⟨1, 1, 0⟩⟩]) "b" ⟨2, 1, 1⟩ =
      (.error (), VectorStore.mk [[1]] [⟨"a", ⟨1, 1, 0⟩⟩]))
    ∧ (VectorStore.add_chunk (fun _ => some [(2:ℚ)])
        (VectorStore.mk [[1]] [⟨"a", ⟨1, 1, 0⟩⟩]) "b" ⟨2, 1, 1⟩).2.chunks =
      [⟨"a", ⟨1, 1, 0⟩⟩] ++ [⟨"b", ⟨2, 1, 1⟩⟩] :=
  ⟨((add_chunk_all_or_nothing (fun _ => none)
      (VectorStore.mk [[1]] [⟨"a", ⟨1, 1, 0⟩⟩]) "b" ⟨2, 1, 1⟩).1 rfl).1,
   ((add_chunk_all_or_nothing (fun _ => some [(2:ℚ)])
      (VectorStore.mk [[1]] [⟨"a", ⟨1, 1, 0⟩⟩]) "b" ⟨2, 1, 1⟩).2 [2] rfl).2.2.1⟩

/-! ## Claim about the alignment invariant (C8) -/

/-- Claim C8: the invariant `len(embeddings) == len(chunks)` holds for the
freshly initialised store and is preserved by `add_chunk` (also on a raise:
the error state is the unchanged input), by `clear`, and by
`reload_from_database` (also when it raises partway: the partial state is
aligned).  `search` and `size` do not mutate the store in the source, so
they are pure functions here and preserve every state trivially; under the
invariant `size` also equals the embedding count. -/
theorem vector_store_alignment_invariant {α : Type} [LinearOrderedField α] :
    (VectorStore.mk ([] : List (List α)) []).aligned
    ∧ (∀ (embed : String → Option (List α)) (vs : VectorStore α) (t : String)
        (m : ChunkMeta), vs.aligned → (VectorStore.add_chunk embed vs t m).2.aligned)
    ∧ (∀ vs : VectorStore α, (VectorStore.clear vs).aligned)
    ∧ (∀ (embed : String → Option (List α)) (dbChunks : List DbChunk)
        (vs : VectorStore α), vs.aligned →
        (VectorStore.reload_from_database embed dbChunks vs).2.aligned)
    ∧ (∀ vs : VectorStore α, vs.aligned → vs.embeddings.length = vs.size) := by
  refine ⟨rfl, ?_, ?_, ?_, ?_⟩
  · intro embed vs t m h
    exact add_chunk_aligned embed vs t m h
  · intro vs
    rfl
  · intro embed dbChunks vs h
    unfold VectorStore.reload_from_database
    by_cases hemp : dbChunks.isEmpty
    · rw [if_pos hemp]
      exact h
    · rw [if_neg hemp]
      exact reloadLoop_aligned embed dbChunks (VectorStore.clear vs) rfl
  · intro vs h
    exact h

/-- Witness for C8 on a concrete aligned store, including an add that
raises and a reload from a two-row store. -/
theorem vector_store_alignment_invariant_witness :
    (VectorStore.add_chunk (fun _ => (none : Option (List ℚ)))
      (VectorStore.mk [[1]] [⟨"a", ⟨1, 1, 0⟩⟩]) "b" ⟨2, 1, 1⟩).2.aligned
    ∧ (VectorStore.reload_from_database (fun _ => some [(1:ℚ)])
        [⟨10, 3, "x", 0, "note", none⟩, ⟨11, 3, "y", 1, "note", none⟩]
        (VectorStore.mk [[1]] [⟨"a", ⟨1, 1, 0⟩⟩])).2.aligned :=
  ⟨vector_store_alignment_invariant.2.1 (fun _ => none)
      (VectorStore.mk [[1]] [⟨"a", ⟨1, 1, 0⟩⟩]) "b" ⟨2, 1, 1⟩ rfl,
   vector_store_alignment_invariant.2.2.2.1 (fun _ => some [(1:ℚ)])
      [⟨10, 3, "x", 0, "note", none⟩, ⟨11, 3, "y", 1, "note", none⟩]
      (VectorStore.mk [[1]] [⟨"a", ⟨1, 1, 0⟩⟩]) rfl⟩

/-! ## Claim about rebuild (C2) -/

/-- Counterexample to C2 as stated: a successful rebuild from a store with
no chunks does **not** leave the index empty — `reload_from_database`
returns before calling `clear`, so a non-empty prior index survives and its
chunk set is not the (empty) store chunk set. -/
theorem reload_empty_store_counterexample :
    (VectorStore.reload_from_database (fun _ => (none : Option (List ℚ))) []
      (VectorStore.mk [[1]] [⟨"stale", ⟨1, 1, 0⟩⟩])).1 = .ok ()
    ∧ (VectorStore.reload_from_database (fun _ => (none : Option (List ℚ))) []
        (VectorStore.mk [[1]] [⟨"stale", ⟨1, 1, 0⟩⟩])).2.chunks =
      [⟨"stale", ⟨1, 1, 0⟩⟩] := by
  constructor
  · rfl
  · rfl

/-- Claim C2, amended: after a successful rebuild from a store with at least
one chunk, the index's chunk records are exactly the store's chunks (in
store order); if the store has no chunks, the rebuild completes
successfully as a no-op that leaves the index **unchanged** — empty only if
it was already empty. -/
theorem reload_from_database_spec {α : Type} [LinearOrderedField α]
    (embed : String → Option (List α)) (dbChunks : List DbChunk) (vs : VectorStore α) :
    (dbChunks = [] →
        VectorStore.reload_from_database embed dbChunks vs = (.ok (), vs))
    ∧ (dbChunks ≠ [] → ∀ vs' : VectorStore α,
        VectorStore.reload_from_database embed dbChunks vs = (.ok (), vs') →
        vs'.chunks = dbChunks.map VectorStore.recOfDbChunk) := by
  constructor
  · intro h
    unfold VectorStore.reload_from_database
    rw [if_pos (by simp [h])]
  · intro h vs' hok
    unfold VectorStore.reload_from_database at hok
    rw [if_neg (by simpa using h)] at hok
    have hloop := reloadLoop_ok_chunks embed dbChunks (VectorStore.clear vs) vs' hok
    simpa [VectorStore.clear] using hloop

/-- Witness for C2 (amended): the empty-store no-op on a non-empty index,
and a successful rebuild from a one-row store. -/
theorem reload_from_database_spec_witness :
    VectorStore.reload_from_database (fun _ => some [(1:ℚ)]) []
      (VectorStore.mk [[1]] [⟨"a", ⟨1, 1, 0⟩⟩]) =
      (.ok (), VectorStore.mk [[1]] [⟨"a", ⟨1, 1, 0⟩⟩])
    ∧ (VectorStore.reload_from_database (fun _ => some [(1:ℚ)])
        [⟨10, 3, "x", 0, "note", none⟩]
        (VectorStore.mk [[1]] [⟨"a", ⟨1, 1, 0⟩⟩])).2.chunks =
      [⟨10, 3, "x", 0, "note", none⟩].map VectorStore.recOfDbChunk :=
  ⟨(reload_from_database_spec (fun _ => some [(1:ℚ)]) []
      (VectorStore.mk [[1]] [⟨"a", ⟨1, 1, 0⟩⟩])).1 rfl,
   (reload_from_database_spec (fun _ => some [(1:ℚ)])
      [⟨10, 3, "x", 0, "note", none⟩]
      (VectorStore.mk [[1]] [⟨"a", ⟨1, 1, 0⟩⟩])).2 (by simp) _ (by decide)⟩

/-! ## Claim about `search` ranking (C3) -/

/-- Claim C3: on an empty index, `search` returns `[]` without raising (it
never touches the embedding client); otherwise, once the query embeds, the
result is exactly the first `k` entries of the similarity list in the total
ranking "descending score, ties by ascending insertion order" (`lexGE`),
paired with their chunk records; consequently the result has `min k n`
entries, scores are non-increasing, `k = 0` gives `[]`, and `k ≥ n` returns
all entries. -/
theorem search_topk_spec {α : Type} [LinearOrderedField α] (sqrt : α → α)
    (embed : String → Option (List α)) (vs : VectorStore α) (q : String) (k : ℕ) :
    (vs.embeddings = [] → VectorStore.search sqrt embed vs q k = .ok [])
    ∧ (∀ qe, embed q = some qe →
        VectorStore.search sqrt embed vs q k =
          .ok (((List.insertionSort lexGE (similarityList sqrt qe vs)).take k).map
            (resultOfIdx vs))
        ∧ ∀ res, VectorStore.search sqrt embed vs q k = .ok res →
            res.length = min k vs.embeddings.length
            ∧ List.Sorted (fun a b : ChunkRec × α => b.2 ≤ a.2) res
            ∧ (k = 0 → res = [])
            ∧ (vs.embeddings.length ≤ k →
                res.Perm ((similarityList sqrt qe vs).map (resultOfIdx vs)))) := by
  constructor
  · exact search_empty sqrt embed vs q k
  · intro qe hq
    have heq := search_eq_ranked sqrt embed vs q k qe hq
    refine ⟨heq, ?_⟩
    intro res hres
    rw [heq] at hres
    cases hres
    refine ⟨?_, search_ok_sorted heq, ?_, ?_⟩
    · simp [List.length_take, List.length_insertionSort, similarityList_length]
    · intro hk
      simp [hk]
    · intro hk
      have hlen : (List.insertionSort lexGE (similarityList sqrt qe vs)).length ≤ k := by
        rw [List.length_insertionSort, similarityList_length]
        exact hk
      rw [List.take_of_length_le hlen]
      exact List.Perm.map _ (List.perm_insertionSort lexGE _)

/-- Witness for C3: an empty index with a *failing* embed client still
returns `ok []`; a two-entry index with a succeeding embed returns the
ranked mapping. -/
theorem search_topk_spec_witness :
    VectorStore.search (fun _ => (0:ℚ)) (fun _ => none) (VectorStore.mk [] []) "q" 3 = .ok []
    ∧ VectorStore.search (fun _ => (0:ℚ)) (fun _ => some [1])
        (VectorStore.mk [[1], [2]] [⟨"a", ⟨1, 1, 0⟩⟩, ⟨"b", ⟨2, 1, 1⟩⟩]) "q" 5 =
      .ok (((List.insertionSort lexGE (similarityList (fun _ => (0:ℚ)) [1]
          (VectorStore.mk [[1], [2]] [⟨"a", ⟨1, 1, 0⟩⟩, ⟨"b", ⟨2, 1, 1⟩⟩]))).take 5).map
        (resultOfIdx (VectorStore.mk [[1], [2]] [⟨"a", ⟨1, 1, 0⟩⟩, ⟨"b", ⟨2, 1, 1⟩⟩]))) :=
  ⟨(search_topk_spec (fun _ => (0:ℚ)) (fun _ => none) (VectorStore.mk [] []) "q" 3).1 rfl,
   ((search_topk_spec (fun _ => (0:ℚ)) (fun _ => some [1])
      (VectorStore.mk [[1], [2]] [⟨"a", ⟨1, 1, 0⟩⟩, ⟨"b", ⟨2, 1, 1⟩⟩]) "q" 5).2 [1] rfl).1⟩

/-! ## Claim about evidence deduplication (C6) -/

/-- Claim C6: for *every* search-result sequence, the evidence list contains
at most one entry per distinct owning item id (pairwise distinct ids); each
retained entry is built from the *first* occurrence of its item id in the
results (`List.find?`); and its scores form a sublist of the result scores
in order.  At the `query` level: the returned evidence list has pairwise
distinct item ids and non-increasing scores. -/
theorem query_dedup_spec {α : Type} [LinearOrderedField α]
    (get_item : Int → Option ItemRec) :
    (∀ results : List (ChunkRec × α),
        List.Pairwise (fun a b : SourceEntry α => a.item_id ≠ b.item_id)
          (buildSources get_item results [])
        ∧ (∀ e ∈ buildSources get_item results [], ∃ cd s item,
            List.find? (fun p => p.1.metadata.item_id == e.item_id) results = some (cd, s)
            ∧ get_item cd.metadata.item_id = some item
            ∧ e = ⟨cd.metadata.item_id, truncateContent cd.text,
                item.source_type, item.url, s⟩)
        ∧ ((buildSources get_item results []).map SourceEntry.relevance_score).Sublist
            (results.map Prod.snd))
    ∧ (∀ (sqrt : α → α) (embed : String → Option (List α))
        (complete : String → List (ChunkRec × α) → Option String)
        (vs : VectorStore α) (question : String) (k : ℕ) (ans : String)
        (srcs : List (SourceEntry α)),
        RAGPipeline.query sqrt embed get_item complete vs question k = .ok (ans, srcs) →
        List.Pairwise (fun a b : SourceEntry α => a.item_id ≠ b.item_id) srcs
        ∧ List.Sorted (fun a b : SourceEntry α =>
            b.relevance_score ≤ a.relevance_score) srcs) := by
  constructor
  · intro results
    obtain ⟨_, h2, h3, h4⟩ := buildSources_spec get_item results []
    exact ⟨h2, h3, h4⟩
  · intro sqrt embed complete vs question k ans srcs hq
    unfold RAGPipeline.query at hq
    cases hs : VectorStore.search sqrt embed vs question k with
    | error e => rw [hs] at hq; cases hq
    | ok results =>
      rw [hs] at hq
      dsimp only at hq
      by_cases hemp : results.isEmpty
      · rw [if_pos hemp] at hq
        rw [Except.ok.injEq, Prod.mk.injEq] at hq
        obtain ⟨_, h6⟩ := hq
        subst h6
        exact ⟨List.Pairwise.nil, List.sorted_nil⟩
      · rw [if_neg hemp] at hq
        cases hc : complete question results with
        | none => rw [hc] at hq; cases hq
        | some a =>
          rw [hc] at hq
          rw [Except.ok.injEq, Prod.mk.injEq] at hq
          obtain ⟨_, h6⟩ := hq
          subst h6
          obtain ⟨_, hnodup, _, hsub⟩ := buildSources_spec get_item results []
          refine ⟨hnodup, ?_⟩
          have hsorted := search_ok_sorted hs
          have hmap : List.Sorted (fun x y : α => y ≤ x) (results.map Prod.snd) :=
            List.Pairwise.map _ (fun a b h => h) hsorted
          have hs2 : List.Sorted (fun x y : α => y ≤ x)
              ((buildSources get_item results []).map SourceEntry.relevance_score) :=
            List.Pairwise.sublist hsub hmap
          exact List.pairwise_map.mp hs2

/-- The concrete inputs shared by the C6 and C9 witnesses. -/
def wGetItem : Int → Option ItemRec := fun i => if i = 7 then some ⟨"note", none⟩ else none

def wResults : List (ChunkRec × ℚ) :=
  [(⟨"a", ⟨1, 7, 0⟩⟩, 1), (⟨"b", ⟨2, 7, 1⟩⟩, 1), (⟨"c", ⟨3, 8, 0⟩⟩, 0)]

/-- Witness for C6: the dedup properties at a concrete three-hit result
list in which item 7 owns the top two hits. -/
theorem query_dedup_spec_witness :
    List.Pairwise (fun a b : SourceEntry ℚ => a.item_id ≠ b.item_id)
      (buildSources wGetItem wResults [])
    ∧ ((buildSources wGetItem wResults []).map SourceEntry.relevance_score).Sublist
        (wResults.map Prod.snd) :=
  ⟨((query_dedup_spec wGetItem).1 wResults).1,
   ((query_dedup_spec wGetItem).1 wResults).2.2⟩

/-! ## Claim about evidence truncation and fields (C9) -/

theorem string_take_length (t : String) (n : ℕ) : (t.take n).length = min n t.length := by
  rw [String.take_eq]
  show (t.data.take n).length = min n t.data.length
  exact List.length_take n t.data

theorem truncateContent_spec (t : String) :
    (t.length ≤ 200 → truncateContent t = t)
    ∧ (200 < t.length → truncateContent t = t.take 200 ++ "..."
        ∧ (t.take 200).length = 200) := by
  constructor
  · intro h
    unfold truncateContent
    rw [if_neg (by omega)]
  · intro h
    unfold truncateContent
    rw [if_pos h]
    refine ⟨rfl, ?_⟩
    rw [string_take_length]
    omega

/-- Claim C9: every evidence entry `query` returns is built from the first
chunk hit of its item: its content is the chunk text itself when that text
has at most 200 characters, and otherwise the 200-character cut followed by
the `"..."` marker (the marker appears exactly in the truncation case); the
entry carries the owning item id, the item's source kind and origin URL,
and the hit's similarity score. -/
theorem query_truncation_spec {α : Type} [LinearOrderedField α]
    (sqrt : α → α) (embed : String → Option (List α))
    (get_item : Int → Option ItemRec)
    (complete : String → List (ChunkRec × α) → Option String)
    (vs : VectorStore α) (question : String) (k : ℕ) (ans : String)
    (srcs : List (SourceEntry α))
    (hq : RAGPipeline.query sqrt embed get_item complete vs question k =
      .ok (ans, srcs)) :
    ∀ e ∈ srcs, ∃ cd : ChunkRec, ∃ s : α, ∃ item : ItemRec,
      get_item e.item_id = some item
      ∧ e.item_id = cd.metadata.item_id
      ∧ e.source_type = item.source_type
      ∧ e.url = item.url
      ∧ e.relevance_score = s
      ∧ (cd.text.length ≤ 200 → e.content = cd.text)
      ∧ (200 < cd.text.length → e.content = cd.text.take 200 ++ "..."
          ∧ (cd.text.take 200).length = 200) := by
  intro e he
  unfold RAGPipeline.query at hq
  cases hs : VectorStore.search sqrt embed vs question k with
  | error er => rw [hs] at hq; cases hq
  | ok results =>
    rw [hs] at hq
    dsimp only at hq
    by_cases hemp : results.isEmpty
    · rw [if_pos hemp] at hq
      rw [Except.ok.injEq, Prod.mk.injEq] at hq
      obtain ⟨_, h6⟩ := hq
      subst h6
      exact absurd he (List.not_mem_nil e)
    · rw [if_neg hemp] at hq
      cases hc : complete question results with
      | none => rw [hc] at hq; cases hq
      | some a =>
        rw [hc] at hq
        rw [Except.ok.injEq, Prod.mk.injEq] at hq
        obtain ⟨_, h6⟩ := hq
        subst h6
        obtain ⟨_, _, hfind, _⟩ := buildSources_spec get_item results []
        obtain ⟨cd, s, item, _, hget, hshape⟩ := hfind e he
        subst hshape
        exact ⟨cd, s, item, hget, rfl, rfl, rfl, rfl,
          fun hl => (truncateContent_spec cd.text).1 hl,
          fun hl => (truncateContent_spec cd.text).2 hl⟩

/-- Concrete clients and store for the C9 witness: one indexed chunk owned
by item 7.  With `wSqrt = const 0` every norm is 0, so the cosine guard
returns score 0 throughout, keeping the whole query kernel-evaluable. -/
def wSqrt : ℚ → ℚ := fun _ => 0

def wEmbed : String → Option (List ℚ) := fun _ => some [1]

def wStore : VectorStore ℚ := ⟨[[1]], [⟨"hello", ⟨1, 7, 0⟩⟩]⟩

def wComplete : String → List (ChunkRec × ℚ) → Option String := fun _ _ => some "A"

def wEntry : SourceEntry ℚ := ⟨7, "hello", "note", none, 0⟩

/-- Witness for C9: a full `query` run on the concrete store produces the
entry `wEntry`, and the claim theorem applies to it. -/
theorem query_truncation_spec_witness :
    ∃ cd : ChunkRec, ∃ s : ℚ, ∃ item : ItemRec,
      wGetItem wEntry.item_id = some item
      ∧ wEntry.item_id = cd.metadata.item_id
      ∧ wEntry.source_type = item.source_type
      ∧ wEntry.url = item.url
      ∧ wEntry.relevance_score = s
      ∧ (cd.text.length ≤ 200 → wEntry.content = cd.text)
      ∧ (200 < cd.text.length → wEntry.content = cd.text.take 200 ++ "..."
          ∧ (cd.text.take 200).length = 200) :=
  query_truncation_spec wSqrt wEmbed wGetItem wComplete wStore "q" 5 "A" [wEntry]
    (by decide) wEntry (by decide)

/-! ## Implicit claim about note validation (C10) -/

/-- Claim C10: a note passes validation exactly when its content is non-empty
after stripping whitespace and has at most 50,000 characters; for every
rejected note, `process_content` raises before inserting anything: the
database and the vector index are returned unchanged. -/
theorem validate_note_spec {α : Type} [LinearOrderedField α] :
    (∀ content : String, ((ContentIngestion.validate_note content).1 = true ↔
        (pyStrip content ≠ "" ∧ content.length ≤ 50000)))
    ∧ (∀ (embed : String → Option (List α)) (extract_url : String → Option String)
        (db : DbState) (vs : VectorStore α) (content : String),
        (ContentIngestion.validate_note content).1 = false →
        process_content embed extract_url db vs content "note" = (.error (), db, vs)) := by
  constructor
  · intro content
    by_cases h1 : content = "" ∨ pyStrip content = ""
    · have hval : ContentIngestion.validate_note content =
          (false, some "Note content cannot be empty") := by
        unfold ContentIngestion.validate_note
        rw [if_pos h1]
      rw [hval]
      constructor
      · intro h
        exact absurd h (by decide)
      · intro hcon
        exfalso
        rcases h1 with h | h
        · exact hcon.1 (by rw [h]; rfl)
        · exact hcon.1 h
    · push_neg at h1
      by_cases h2 : 50000 < content.length
      · have hval : ContentIngestion.validate_note content =
            (false, some "Note content too long (max 50,000 characters)") := by
          unfold ContentIngestion.validate_note
          rw [if_neg (by push_neg; exact h1), if_pos h2]
        rw [hval]
        constructor
        · intro h
          exact absurd h (by decide)
        · intro hcon
          omega
      · have hval : ContentIngestion.validate_note content = (true, none) := by
          unfold ContentIngestion.validate_note
          rw [if_neg (by push_neg; exact h1), if_neg h2]
        rw [hval]
        constructor
        · intro _
          exact ⟨h1.2, by omega⟩
        · intro _
          rfl
  · intro embed extract_url db vs content hval
    unfold process_content
    rw [if_neg (by decide)]
    rw [hval]
    rfl

/-- Witness for C10: a non-empty valid note, an all-whitespace rejected
note, and the unchanged-state raise of `process_content` on it. -/
theorem validate_note_spec_witness :
    ((ContentIngestion.validate_note "sky").1 = true ↔
      (pyStrip "sky" ≠ "" ∧ ("sky" : String).length ≤ 50000))
    ∧ process_content (fun _ => some [(1:ℚ)]) (fun _ => none)
        (DbState.mk [] [] 1 1) (VectorStore.mk [] []) "   " "note" =
      (.error (), DbState.mk [] [] 1 1, VectorStore.mk [] []) :=
  ⟨(validate_note_spec (α := ℚ)).1 "sky",
   (validate_note_spec (α := ℚ)).2 (fun _ => some [(1:ℚ)]) (fun _ => none)
     (DbState.mk [] [] 1 1) (VectorStore.mk [] []) "   " (by decide)⟩
